import Mathlib

/-!
# Verification of the video-audio-tool segmentation core

Shallow embedding of the segmentation / time-parsing / validation layer of
the repository (src/core/video_splitter.py, src/core/audio_splitter.py,
src/core/base_handler.py, src/core/unified_video_handler.py,
src/core/speech_to_text.py) together with proofs about the embedded code.

Modelling conventions:
* Python floats are modelled as exact rationals (ℚ).  None of the verified
  properties depends on rounding of binary floating point; they are order-,
  membership- and control-flow-properties, which are preserved by the exact
  model.
* Python `float(text)` (the literal-to-float conversion) is abstracted as a
  parameter `pf : String → Option ℚ` (`none` models a `ValueError`).  All
  universally quantified theorems hold for every such conversion function.
* `str.split(':')` is modelled by an explicit structural splitter with the
  exact Python semantics for a one-character separator.
* Python `sorted` is a stable ascending sort; on values (rationals) any two
  stable ascending sorts agree, so it is modelled by `List.insertionSort`.
* `list(dict.fromkeys(xs))` (order preserving, first-occurrence-wins
  deduplication) is modelled by `pyDedup`.
* External effects (existence of ffmpeg.exe, the duration probe, directory
  creation, the exit status of each external invocation, availability of the
  pydub library, ...) are modelled by an explicit environment record; the
  embedded operations are deterministic functions of their arguments and the
  environment.
* Every Python exception is modelled by the `.error` case of `Except PyExc`;
  `try/except` blocks are modelled by matching on that case.
-/

namespace VideoAudioTool

/-- A Python exception value.  `valueError` is distinguished because
`base_handler._time_str_to_seconds` catches exactly `ValueError`, while all
other handlers in the modelled code catch `Exception` (everything). -/
inductive PyExc : Type where
  | valueError (msg : String)
  | exc (msg : String)
deriving DecidableEq, Repr

/-- Python `int(x)` on a float: truncation toward zero. -/
def pyInt (q : ℚ) : ℤ :=
  if 0 ≤ q then q.floor else -((-q).floor)

/-- Core of the `str.split` model: one-character separator `':'`,
accumulating the current chunk in reverse. -/
def splitColonAux : List Char → List Char → List (List Char)
  | [], acc => [acc.reverse]
  | c :: rest, acc =>
      if c = ':' then acc.reverse :: splitColonAux rest []
      else splitColonAux rest (c :: acc)

/-- Python `time_str.split(':')`.  Matches CPython semantics for an explicit
one-character separator: `"".split(':') == ['']`, `"a::b".split(':') ==
['a', '', 'b']`. -/
def pySplitColon (s : String) : List String :=
  (splitColonAux s.data []).map (fun l => String.mk l)

/-- Python `list(dict.fromkeys(xs))`: deduplication keeping the first
occurrence of each value, preserving order. -/
def pyDedup {α : Type} [DecidableEq α] : List α → List α
  | [] => []
  | x :: xs => x :: pyDedup (xs.filter (fun y => y ≠ x))
termination_by l => l.length
decreasing_by
  simp only [List.length_cons]
  exact Nat.lt_succ_of_le (List.length_filter_le _ _)

/-- Python `sorted(xs)` (ascending, stable; stability is irrelevant for
values with decidable equality, so any ascending stable sort is extensionally
the same function). -/
def pySorted {α : Type} [LinearOrder α] (l : List α) : List α :=
  l.insertionSort (· ≤ ·)

/-! ## Time model

`BaseVideoHandler._time_str_to_seconds` (src/core/base_handler.py, lines
127-151) and `AudioSplitter._time_str_to_seconds`
(src/core/audio_splitter.py, lines 479-499).

Each is split into a `Raw` function (the body of the Python `try:` block,
which may raise) and the catching wrapper actually called by the rest of the
code. -/

/-- Body of the `try:` block of `BaseVideoHandler._time_str_to_seconds`:
split on `':'`; 3 components are HH:MM:SS, 2 are MM:SS, 1 is SS, each parsed
as a float (a failing `float(...)` raises `ValueError`); any other component
count raises `ValueError`. -/
def timeStrToSecondsBaseRaw (pf : String → Option ℚ) (time_str : String) :
    Except PyExc ℚ :=
  let parts := pySplitColon time_str
  match parts with
  | [h, m, s] =>
      match pf h, pf m, pf s with
      | some hours, some minutes, some seconds =>
          .ok (hours * 3600 + minutes * 60 + seconds)
      | _, _, _ => .error (.valueError "could not convert string to float")
  | [m, s] =>
      match pf m, pf s with
      | some minutes, some seconds => .ok (minutes * 60 + seconds)
      | _, _ => .error (.valueError "could not convert string to float")
  | [s] =>
      match pf s with
      | some seconds => .ok seconds
      | none => .error (.valueError "could not convert string to float")
  | _ => .error (.valueError "无效的时间格式")

/-- `BaseVideoHandler._time_str_to_seconds` including its
`except ValueError: return 0.0` handler.  A non-`ValueError` exception would
escape (`.error`); totality is proved separately. -/
def timeStrToSecondsBaseE (pf : String → Option ℚ) (time_str : String) :
    Except PyExc ℚ :=
  match timeStrToSecondsBaseRaw pf time_str with
  | .ok v => .ok v
  | .error (.valueError _) => .ok 0
  | .error e => .error e

/-- The value produced by `BaseVideoHandler._time_str_to_seconds` (which in
fact never raises, see `timeStrToSecondsBaseE_ok`). -/
def timeStrToSecondsB (pf : String → Option ℚ) (time_str : String) : ℚ :=
  match timeStrToSecondsBaseE pf time_str with
  | .ok v => v
  | .error _ => 0

/-- Body of the `try:` block of `AudioSplitter._time_str_to_seconds`:
requires exactly 3 `':'`-separated components (otherwise raises
`ValueError("时间格式错误")`), then HH:MM:SS with float components. -/
def timeStrToSecondsAudioRaw (pf : String → Option ℚ) (time_str : String) :
    Except PyExc ℚ :=
  let parts := pySplitColon time_str
  match parts with
  | [h, m, s] =>
      match pf h, pf m, pf s with
      | some hours, some minutes, some seconds =>
          .ok (hours * 3600 + minutes * 60 + seconds)
      | _, _, _ => .error (.valueError "could not convert string to float")
  | _ => .error (.valueError "时间格式错误")

/-- `AudioSplitter._time_str_to_seconds`: its handler catches `Exception`
(everything) and returns `0.0`, so it is total. -/
def timeStrToSecondsA (pf : String → Option ℚ) (time_str : String) : ℚ :=
  match timeStrToSecondsAudioRaw pf time_str with
  | .ok v => v
  | .error _ => 0

/-- `AudioSplitter._time_str_to_milliseconds`: `int(seconds * 1000)`. -/
def timeStrToMillisecondsA (pf : String → Option ℚ) (time_str : String) : ℤ :=
  pyInt (timeStrToSecondsA pf time_str * 1000)

/-! ## Segment planning -/

/-- Interior split points retained by `VideoSplitter.split_video`
(src/core/video_splitter.py, lines 58-61):
`sorted([s for s in (self._time_str_to_seconds(t) for t in time_points)
if 0 <= s <= total_duration])` — an inclusive range filter and no
deduplication. -/
def videoTimeSeconds (pf : String → Option ℚ) (D : ℚ)
    (time_points : List String) : List ℚ :=
  pySorted ((time_points.map (timeStrToSecondsB pf)).filter
    (fun s => decide (0 ≤ s) && decide (s ≤ D)))

/-- Interior split points retained by `AudioSplitter._split_audio_with_ffmpeg`
(src/core/audio_splitter.py, lines 119-134): keep `0 < seconds <
total_duration`, sort, then `list(dict.fromkeys(...))`. -/
def audioTimeSeconds (pf : String → Option ℚ) (D : ℚ)
    (time_points : List String) : List ℚ :=
  pyDedup (pySorted ((time_points.map (timeStrToSecondsA pf)).filter
    (fun s => decide (0 < s) && decide (s < D))))

/-- Interior split points (milliseconds) retained by
`AudioSplitter._split_audio_with_pydub` (src/core/audio_splitter.py, lines
231-246): keep `0 < ms < total_duration_ms`, sort, dedup. -/
def audioTimeMs (pf : String → Option ℚ) (L : ℤ)
    (time_points : List String) : List ℤ :=
  pyDedup (pySorted ((time_points.map (timeStrToMillisecondsA pf)).filter
    (fun ms => decide (0 < ms) && decide (ms < L))))

/-- `split_points = [0] + interior + [total_duration]` (video line 62, audio
lines 141 and 253). -/
def splitPointsOf {α : Type} [Zero α] (interior : List α) (D : α) : List α :=
  0 :: (interior ++ [D])

/-- Consecutive-pair intervals: `list(zip(split_points[:-1],
split_points[1:]))` (video line 63); the audio loops index
`split_points[i], split_points[i+1]` which yields the same pair list. -/
def intervalsOf {α : Type} (pts : List α) : List (α × α) :=
  pts.zip pts.tail

/-- Python `enumerate(xs, start)`. -/
def enumFrom {α : Type} (i : ℕ) : List α → List (ℕ × α)
  | [] => []
  | x :: xs => (i, x) :: enumFrom (i + 1) xs

/-! ## Results, traces and environments -/

/-- The result dictionary of a split operation: either
`{'success': True, 'output_files': ..., 'message': ...}` or
`{'success': False, 'error': ...}`. -/
inductive SplitResult : Type where
  | ok (output_files : List String) (message : String)
  | err (error : String)
deriving DecidableEq, Repr

/-- One external side effect of a split run: an invocation of the ffmpeg
executable, or a pydub in-memory slice export. -/
inductive InvokeEvent : Type where
  | ffmpegCall (args : List String)
  | pydubExport (startMs stopMs : ℤ) (path : String)
deriving DecidableEq, Repr

/-- Observable trace of one run: progress values passed to the progress
callback (in call order) and the external invocations (in call order). -/
structure Trace : Type where
  progress : List ℤ
  invocations : List InvokeEvent
deriving DecidableEq, Repr

def Trace.nil : Trace := ⟨[], []⟩

def Trace.app (t u : Trace) : Trace :=
  ⟨t.progress ++ u.progress, t.invocations ++ u.invocations⟩

/-- Environment of a `AudioSplitter.split_audio` run: everything the code
observes from the outside world.  Per-segment fields are indexed by the
0-based loop index. -/
structure AudioEnv : Type where
  /-- `os.path.exists(ffmpeg_path)` (line 99). -/
  ffmpegExists : Bool
  /-- Result of the ffprobe duration query plus `float(...)` parse (lines
  109-113): `none` models any failure of that `try` block. -/
  probeDuration : Option ℚ
  /-- Output-directory creation and write-probe (lines 150-161) succeed. -/
  mkdirOk : Bool
  /-- `result.returncode == 0` of the i-th ffmpeg segment invocation. -/
  ffmpegRunOk : ℕ → Bool
  /-- Captured stderr of the i-th ffmpeg segment invocation. -/
  ffmpegStderr : ℕ → String
  /-- `AudioSegment is not None` (pydub importable, line 216). -/
  pydubInstalled : Bool
  /-- `len(AudioSegment.from_file(audio_path))` in milliseconds (line
  224-225); `none` models `from_file` raising. -/
  pydubLoadMs : Option ℤ
  /-- Output-directory creation and write-probe of the pydub path (lines
  262-273) succeed. -/
  pydubMkdirOk : Bool
  /-- The i-th `segment.export(...)` call (line 293) succeeds. -/
  exportOk : ℕ → Bool

/-- The resolved ffmpeg executable path
(`os.path.join(current_dir, "ffmpeg.exe")`); the directory prefix is
abstracted away. -/
def ffmpegExePath : String := "ffmpeg.exe"

/-- Segment file name `f"{base_name}_part_{i+1:02d}{file_extension}"`
(audio line 174 / 289; video line 76 with `file_extension = ".mp4"`),
`i` being the 0-based loop index. -/
def partName (base ext : String) (i : ℕ) : String :=
  base ++ "_part_" ++ (if i + 1 < 10 then "0" ++ toString (i + 1)
    else toString (i + 1)) ++ ext

/-- `os.path.join(output_dir, filename)` (with `normpath` abstracted as the
identity). -/
def joinPath (dir name : String) : String := dir ++ "/" ++ name

/-! ## `AudioSplitter._split_audio_with_ffmpeg`
(src/core/audio_splitter.py, lines 87-209) -/

/-- The i-th segment command of the fast path (lines 178-187):
`[ffmpeg_path, "-i", audio_path, "-ss", str(start_time), "-t",
str(duration), "-c", "copy", "-avoid_negative_ts", "make_zero", "-y",
output_path]`.  Note the source places `-ss` after the input argument. -/
def audioFfmpegCmd (ap : String) (start dur : ℚ) (outPath : String) :
    List String :=
  [ffmpegExePath, "-i", ap, "-ss", toString start, "-t", toString dur,
   "-c", "copy", "-avoid_negative_ts", "make_zero", "-y", outPath]

/-- Progress value emitted after the i-th fast-path segment:
`30 + (i + 1) * 60 // len(split_points)` (line 199), `n` being
`len(split_points)`. -/
def ffmpegProgress (n i : ℕ) : ℤ := ((30 + (i + 1) * 60 / n : ℕ) : ℤ)

/-- The fast-path segment loop (lines 169-200): for each interval run one
ffmpeg command; on non-zero exit raise; on success record the output file
and report progress. -/
def ffmpegSegLoop (env : AudioEnv) (ap od base ext : String) (n : ℕ) :
    List (ℕ × (ℚ × ℚ)) → Trace × Except PyExc (List String)
  | [] => (Trace.nil, .ok [])
  | (i, (s, e)) :: rest =>
      let outPath := joinPath od (partName base ext i)
      let cmd := audioFfmpegCmd ap s (e - s) outPath
      if env.ffmpegRunOk i then
        let (tr, res) := ffmpegSegLoop env ap od base ext n rest
        (⟨ffmpegProgress n i :: tr.progress, .ffmpegCall cmd :: tr.invocations⟩,
         res.map (fun files => outPath :: files))
      else
        (⟨[], [.ffmpegCall cmd]⟩,
         .error (.exc ("FFmpeg拆分失败: " ++ env.ffmpegStderr i)))

/-- `AudioSplitter._split_audio_with_ffmpeg`.  `base`/`ext` stand for
`os.path.splitext(os.path.basename(audio_path))[0]` and
`os.path.splitext(audio_path)[1]`; numeric interpolations inside message
strings are elided. -/
def splitAudioWithFfmpeg (env : AudioEnv) (pf : String → Option ℚ)
    (ap base ext : String) (time_points : List String) (od : String) :
    Trace × Except PyExc SplitResult :=
  let tr0 : Trace := ⟨[10], []⟩
  if ¬ env.ffmpegExists then
    (tr0, .error (.exc "找不到ffmpeg.exe"))
  else
    match env.probeDuration with
    | none => (tr0, .error (.exc "无法获取音频时长"))
    | some D =>
      let tr1 : Trace := ⟨[10, 20], []⟩
      let time_seconds := audioTimeSeconds pf D time_points
      if time_seconds = [] then
        (tr1, .error (.exc "没有有效的拆分点。"))
      else
        let split_points := splitPointsOf time_seconds D
        let tr2 : Trace := ⟨[10, 20, 30], []⟩
        if ¬ env.mkdirOk then
          (tr2, .error (.exc "无法创建或访问输出目录: "))
        else
          let n := split_points.length
          let (trLoop, res) := ffmpegSegLoop env ap od base ext n
            (enumFrom 0 (intervalsOf split_points))
          match res with
          | .ok files =>
              (⟨tr2.progress ++ trLoop.progress ++ [100],
                trLoop.invocations⟩,
               .ok (.ok files "音频拆分完成"))
          | .error e =>
              (tr2.app trLoop, .error e)

/-! ## `AudioSplitter._split_audio_with_pydub`
(src/core/audio_splitter.py, lines 211-316) -/

/-- The pydub export loop (lines 281-299): slice `audio[start_ms:end_ms]`,
export, record the output file, report progress.  An export failure raises
(the exception is caught by the surrounding `try` of the pydub path). -/
def pydubSegLoop (env : AudioEnv) (od base ext : String) (n : ℕ) :
    List (ℕ × (ℤ × ℤ)) → Trace × Except PyExc (List String)
  | [] => (Trace.nil, .ok [])
  | (i, (s, e)) :: rest =>
      let outPath := joinPath od (partName base ext i)
      if env.exportOk i then
        let (tr, res) := pydubSegLoop env od base ext n rest
        (⟨ffmpegProgress n i :: tr.progress,
          .pydubExport s e outPath :: tr.invocations⟩,
         res.map (fun files => outPath :: files))
      else
        (⟨[], [.pydubExport s e outPath]⟩, .error (.exc "导出失败"))

/-- `AudioSplitter._split_audio_with_pydub`.  The `AudioSegment is None`
check (lines 216-217) raises *outside* the `try:` block that starts at line
219, so that exception escapes the function; every other failure is caught
at line 310 and turned into a `{'success': False, ...}` dictionary. -/
def splitAudioWithPydub (env : AudioEnv) (pf : String → Option ℚ)
    (_ap base ext : String) (time_points : List String) (od : String) :
    Trace × Except PyExc SplitResult :=
  if ¬ env.pydubInstalled then
    (Trace.nil, .error (.exc "pydub未安装，无法使用备用拆分方法"))
  else
    let tr0 : Trace := ⟨[10], []⟩
    match env.pydubLoadMs with
    | none => (tr0, .ok (.err "音频拆分失败: 无法读取音频文件"))
    | some L =>
      let tr1 : Trace := ⟨[10, 20], []⟩
      let time_ms := audioTimeMs pf L time_points
      if time_ms = [] then
        (tr1, .ok (.err "音频拆分失败: 没有有效的拆分点。"))
      else
        let split_points := splitPointsOf time_ms L
        let tr2 : Trace := ⟨[10, 20, 30], []⟩
        if ¬ env.pydubMkdirOk then
          (tr2, .ok (.err "音频拆分失败: 无法创建或访问输出目录: "))
        else
          let n := split_points.length
          let (trLoop, res) := pydubSegLoop env od base ext n
            (enumFrom 0 (intervalsOf split_points))
          match res with
          | .ok files =>
              (⟨tr2.progress ++ trLoop.progress ++ [100],
                trLoop.invocations⟩,
               .ok (.ok files "音频拆分完成"))
          | .error _ =>
              (tr2.app trLoop, .ok (.err "音频拆分失败: 导出失败"))

/-- `AudioSplitter.split_audio` (lines 65-85): try the fast ffmpeg path;
when it raises for any reason, rerun the whole operation from scratch with
the pydub implementation on the same arguments.  The pydub call sits inside
the `except` handler, so an exception it raises (pydub not installed)
escapes `split_audio` itself. -/
def split_audio (env : AudioEnv) (pf : String → Option ℚ)
    (ap base ext : String) (time_points : List String) (od : String) :
    Trace × Except PyExc SplitResult :=
  match splitAudioWithFfmpeg env pf ap base ext time_points od with
  | (tr, .ok r) => (tr, .ok r)
  | (tr, .error _) =>
      let (tr2, r2) := splitAudioWithPydub env pf ap base ext time_points od
      (tr.app tr2, r2)

/-! ## `VideoSplitter.split_video`
(src/core/video_splitter.py, lines 17-124) -/

/-- Environment of a `VideoSplitter.split_video` run. -/
structure VideoEnv : Type where
  /-- `self.test_ffmpeg_config()` (line 33). -/
  configOk : Bool
  /-- `self._get_video_duration_ffmpeg(video_path)` (line 47). -/
  probeDuration : Option ℚ
  /-- `result.returncode == 0` of the i-th interval's ffmpeg invocation,
  indexed by the `enumerate` index `i`. -/
  runOk : ℕ → Bool
  /-- Captured stderr of the i-th interval's ffmpeg invocation. -/
  stderr : ℕ → String

/-- The i-th segment command of the video splitter (lines 82-91):
`[ffmpeg_path, '-ss', str(start_time), '-i', video_path, '-to',
str(duration), '-c:v', 'libx264', '-c:a', 'aac', '-y', output_path]`.
Here `-ss` precedes the input and `-to` is (mislabeled but) given the
duration `end_time - start_time`. -/
def videoFfmpegCmd (vp : String) (start dur : ℚ) (outPath : String) :
    List String :=
  [ffmpegExePath, "-ss", toString start, "-i", vp, "-to", toString dur,
   "-c:v", "libx264", "-c:a", "aac", "-y", outPath]

/-- Progress value after the i-th video interval:
`30 + int((i + 1) / total_intervals * 60)` (line 106); `int()` is floor on
these non-negative values. -/
def videoProgress (total i : ℕ) : ℤ :=
  30 + ⌊(((i : ℚ) + 1) / (total : ℚ)) * 60⌋

/-- The video segment loop (lines 71-107).  Intervals with
`start_time >= end_time` are skipped entirely (`continue`): no command, no
output file, no progress report — but they do consume their `enumerate`
index.  A failing invocation makes the whole operation return a
`{'success': False, ...}` dictionary. -/
def videoSegLoop (env : VideoEnv) (vp od base : String) (total : ℕ) :
    List (ℕ × (ℚ × ℚ)) → Trace × Except SplitResult (List String)
  | [] => (Trace.nil, .ok [])
  | (i, (s, e)) :: rest =>
      if e ≤ s then videoSegLoop env vp od base total rest
      else
        let outPath := joinPath od (partName base ".mp4" i)
        let cmd := videoFfmpegCmd vp s (e - s) outPath
        if env.runOk i then
          let (tr, res) := videoSegLoop env vp od base total rest
          (⟨videoProgress total i :: tr.progress,
            .ffmpegCall cmd :: tr.invocations⟩,
           res.map (fun files => outPath :: files))
        else
          (⟨[], [.ffmpegCall cmd]⟩,
           .error (.err ("片段生成失败: " ++ env.stderr i)))

/-- `VideoSplitter.split_video`.  The whole body is wrapped in
`try/except Exception`, and every failure path already returns a result
dictionary, so the operation never raises.  `base` stands for
`os.path.splitext(os.path.basename(video_path))[0]`. -/
def split_video (env : VideoEnv) (pf : String → Option ℚ)
    (vp base : String) (time_points : List String) (od : String) :
    Trace × SplitResult :=
  if ¬ env.configOk then
    (Trace.nil, .err "FFmpeg配置测试失败，请检查FFmpeg安装和配置")
  else
    let tr0 : Trace := ⟨[10], []⟩
    match env.probeDuration with
    | none => (tr0, .err "无法获取视频时长信息")
    | some D =>
      let time_seconds := videoTimeSeconds pf D time_points
      let split_points := splitPointsOf time_seconds D
      let intervals := intervalsOf split_points
      let tr1 : Trace := ⟨[10, 20, 30], []⟩
      let (trLoop, res) := videoSegLoop env vp od base intervals.length
        (enumFrom 0 intervals)
      match res with
      | .ok files =>
          (⟨tr1.progress ++ trLoop.progress ++ [100], trLoop.invocations⟩,
           .ok files "成功拆分")
      | .error r => (tr1.app trLoop, r)

/-! ## `UnifiedVideoHandler.validate_time_points`
(src/core/unified_video_handler.py, lines 258-293).  `UnifiedVideoHandler`
inherits `_time_str_to_seconds` from `BaseVideoHandler`. -/

/-- Reason attached to an entry of `invalid_points`: either the
out-of-range reason string `f'超出视频时长范围 (0-...s)'` or the format-error
reason string `f'时间格式错误: ...'` (numeric/str interpolations elided). -/
inductive InvalidReason : Type where
  | outOfRange
  | formatError (e : PyExc)
deriving DecidableEq, Repr

/-- The dictionary returned by `validate_time_points`. -/
structure ValidateResult : Type where
  valid : Bool
  valid_points : List String
  invalid_points : List (String × InvalidReason)
deriving DecidableEq, Repr

/-- One iteration of the `for time_str in time_points` loop: the parser call
sits in a `try`, whose `except Exception` branch files the point as a
format error; a returned value is classified by `0 <= seconds <=
video_duration`. -/
def classifyTimePoint (pf : String → Option ℚ) (video_duration : ℚ)
    (time_str : String) : Sum String (String × InvalidReason) :=
  match timeStrToSecondsBaseE pf time_str with
  | .ok seconds =>
      if 0 ≤ seconds ∧ seconds ≤ video_duration then .inl time_str
      else .inr (time_str, .outOfRange)
  | .error e => .inr (time_str, .formatError e)

/-- `UnifiedVideoHandler.validate_time_points`. -/
def validate_time_points (pf : String → Option ℚ)
    (time_points : List String) (video_duration : ℚ) : ValidateResult :=
  let classified := time_points.map (classifyTimePoint pf video_duration)
  let valid_points := classified.filterMap (fun c => c.getLeft?)
  let invalid_points := classified.filterMap (fun c => c.getRight?)
  { valid := invalid_points.length = 0
    valid_points := valid_points
    invalid_points := invalid_points }

/-! ## `SpeechToText` model cache
(src/core/speech_to_text.py, lines 34-41 and 158-175) -/

/-- The mutable model-cache state of a `SpeechToText` instance:
`self.whisper_model` (model objects identified by a load counter) and
`self.current_model_size`. -/
structure STTState : Type where
  whisper_model : Option ℕ
  current_model_size : Option String
deriving DecidableEq, Repr

/-- `SpeechToText.__init__` (lines 34-41): both cache fields start as
`None`. -/
def sttInit : STTState := ⟨none, none⟩

/-- The model-cache step of `_transcribe_audio` (lines 158-175):
`if self.whisper_model is None or self.current_model_size != model_size:`
construct a new model and update both fields, else reuse.  `loadResult`
models `WhisperModel(model_size, ...)`: `some m` is a freshly constructed
model object, `none` means the constructor raised (in which case neither
field is assigned and the exception propagates to the outer handler).
Returns (state after the step, whether a load was performed, whether the
load raised). -/
def transcribeModelStep (st : STTState) (model_size : String)
    (loadResult : Option ℕ) : STTState × Bool × Bool :=
  if st.whisper_model = none ∨ st.current_model_size ≠ some model_size then
    match loadResult with
    | some m => (⟨some m, some model_size⟩, true, false)
    | none => (st, true, true)
  else
    (st, false, false)

/-! ## Specification-side definitions and concrete test fixtures -/

/-- Interior points as the specification describes them (spec §4.3 / claim
C2): the parsed values strictly between 0 and the total duration, sorted
ascending and deduplicated.  Written from the spec's words, to be compared
against the source-derived planners. -/
def specInteriorPoints (parsed : List ℚ) (D : ℚ) : List ℚ :=
  pyDedup (pySorted (parsed.filter (fun s => decide (0 < s) && decide (s < D))))

/-- What "partitions [0, D] exactly" means for an interval list (claim C1):
the first interval starts at 0, the last ends at D, each interval's end is
the next interval's start, every interval is non-degenerate in the weak
sense `start ≤ end`, and every point of `[0, D]` is covered by some
interval. -/
def IsExactPartition (L : List (ℚ × ℚ)) (D : ℚ) : Prop :=
  L.head?.map Prod.fst = some 0 ∧
  L.getLast?.map Prod.snd = some D ∧
  List.Chain' (fun p q => p.2 = q.1) L ∧
  (∀ p ∈ L, p.1 ≤ p.2) ∧
  (∀ x : ℚ, 0 ≤ x → x ≤ D → ∃ p ∈ L, p.1 ≤ x ∧ x ≤ p.2)

/-- A concrete model of Python `float(text)` restricted to the literals
used in the concrete test inputs below; every other string raises
(`none`). -/
def pf0 (s : String) : Option ℚ :=
  if s = "0" then some 0
  else if s = "5" then some 5
  else if s = "30" then some 30
  else if s = "60" then some 60
  else none

/-- Argument list of an invocation event (for stating facts about executed
commands). -/
def invArgs : InvokeEvent → List String
  | .ffmpegCall args => args
  | .pydubExport _ _ p => [p]

/-- An environment in which every external step succeeds: ffmpeg present,
probe reports 60 s, pydub installed and reporting 60000 ms. -/
def audioEnvOk : AudioEnv :=
  { ffmpegExists := true
    probeDuration := some 60
    mkdirOk := true
    ffmpegRunOk := fun _ => true
    ffmpegStderr := fun _ => ""
    pydubInstalled := true
    pydubLoadMs := some 60000
    pydubMkdirOk := true
    exportOk := fun _ => true }

/-- An environment with no ffmpeg.exe and no pydub installed. -/
def audioEnvNoTools : AudioEnv :=
  { audioEnvOk with ffmpegExists := false, pydubInstalled := false }

/-- An environment where ffmpeg.exe exists and probing works but every
ffmpeg segment invocation exits non-zero (so the fast path fails mid-loop
and `split_audio` falls back to pydub). -/
def audioEnvRunFail : AudioEnv :=
  { audioEnvOk with ffmpegRunOk := fun _ => false }

/-- A video environment in which every external step succeeds (duration
60 s). -/
def videoEnvOk : VideoEnv :=
  { configOk := true
    probeDuration := some 60
    runOk := fun _ => true
    stderr := fun _ => "" }

/-! ## Helper lemmas: deduplication, sorting, planning -/

theorem pyDedup_sublist {α : Type} [DecidableEq α] :
    ∀ l : List α, (pyDedup l).Sublist l := by
  intro l
  induction l using pyDedup.induct with
  | case1 => simp [pyDedup]
  | case2 x xs ih =>
      rw [pyDedup]
      exact (ih.trans (List.filter_sublist xs)).cons₂ x

theorem mem_pyDedup {α : Type} [DecidableEq α] (a : α) :
    ∀ l : List α, a ∈ pyDedup l ↔ a ∈ l := by
  intro l
  induction l using pyDedup.induct with
  | case1 => simp [pyDedup]
  | case2 x xs ih =>
      rw [pyDedup]
      by_cases hax : a = x
      · subst hax; simp
      · simp only [List.mem_cons, ih, List.mem_filter, hax, false_or]
        simp [hax]

theorem nodup_pyDedup {α : Type} [DecidableEq α] :
    ∀ l : List α, (pyDedup l).Nodup := by
  intro l
  induction l using pyDedup.induct with
  | case1 => simp [pyDedup]
  | case2 x xs ih =>
      rw [pyDedup, List.nodup_cons]
      refine ⟨fun hx => ?_, ih⟩
      have := ((mem_pyDedup x _).1 hx)
      simp [List.mem_filter] at this

theorem sorted_pySorted {α : Type} [LinearOrder α] (l : List α) :
    (pySorted l).Sorted (· ≤ ·) :=
  List.sorted_insertionSort _ l

theorem perm_pySorted {α : Type} [LinearOrder α] (l : List α) :
    (pySorted l).Perm l :=
  List.perm_insertionSort _ l

theorem sorted_pyDedup {α : Type} [LinearOrder α] [DecidableEq α]
    (l : List α) (h : l.Sorted (· ≤ ·)) : (pyDedup l).Sorted (· ≤ ·) :=
  h.sublist (pyDedup_sublist l)

theorem sorted_videoTimeSeconds (pf : String → Option ℚ) (D : ℚ)
    (tps : List String) : (videoTimeSeconds pf D tps).Sorted (· ≤ ·) :=
  sorted_pySorted _

theorem mem_videoTimeSeconds (pf : String → Option ℚ) (D : ℚ)
    (tps : List String) (x : ℚ) :
    x ∈ videoTimeSeconds pf D tps ↔
      x ∈ tps.map (timeStrToSecondsB pf) ∧ 0 ≤ x ∧ x ≤ D := by
  rw [videoTimeSeconds, (perm_pySorted _).mem_iff, List.mem_filter]
  simp

theorem sorted_audioTimeSeconds (pf : String → Option ℚ) (D : ℚ)
    (tps : List String) : (audioTimeSeconds pf D tps).Sorted (· ≤ ·) :=
  sorted_pyDedup _ (sorted_pySorted _)

theorem nodup_audioTimeSeconds (pf : String → Option ℚ) (D : ℚ)
    (tps : List String) : (audioTimeSeconds pf D tps).Nodup :=
  nodup_pyDedup _

theorem mem_audioTimeSeconds (pf : String → Option ℚ) (D : ℚ)
    (tps : List String) (x : ℚ) :
    x ∈ audioTimeSeconds pf D tps ↔
      x ∈ tps.map (timeStrToSecondsA pf) ∧ 0 < x ∧ x < D := by
  rw [audioTimeSeconds, mem_pyDedup, (perm_pySorted _).mem_iff,
    List.mem_filter]
  simp

/-! ## Helper lemmas: interval lists -/

theorem intervalsOf_cons_cons {α : Type} (a b : α) (l : List α) :
    intervalsOf (a :: b :: l) = (a, b) :: intervalsOf (b :: l) := by
  simp [intervalsOf]

theorem chain'_snd_fst : ∀ pts : List ℚ,
    List.Chain' (fun p q : ℚ × ℚ => p.2 = q.1) (intervalsOf pts)
  | [] => by simp [intervalsOf]
  | [a] => by simp [intervalsOf]
  | a :: b :: l => by
      rw [intervalsOf_cons_cons, List.chain'_cons']
      refine ⟨?_, chain'_snd_fst (b :: l)⟩
      intro y hy
      cases l with
      | nil => simp [intervalsOf] at hy
      | cons c l' =>
          rw [intervalsOf_cons_cons] at hy
          simp at hy
          rw [← hy]

theorem intervals_start_le_end : ∀ pts : List ℚ,
    List.Chain' (· ≤ ·) pts → ∀ p ∈ intervalsOf pts, p.1 ≤ p.2
  | [] => by simp [intervalsOf]
  | [a] => by simp [intervalsOf]
  | a :: b :: l => by
      intro h p hp
      rw [intervalsOf_cons_cons] at hp
      rw [List.chain'_cons] at h
      rcases List.mem_cons.1 hp with hp | hp
      · subst hp; exact h.1
      · exact intervals_start_le_end (b :: l) h.2 p hp

theorem intervals_last : ∀ (l : List ℚ) (a D : ℚ),
    (intervalsOf (a :: (l ++ [D]))).getLast?.map Prod.snd = some D
  | [], a, D => by simp [intervalsOf]
  | b :: l', a, D => by
      rw [List.cons_append, intervalsOf_cons_cons]
      have hrec := intervals_last l' b D
      cases hl : intervalsOf (b :: (l' ++ [D])) with
      | nil =>
          cases l' with
          | nil => simp [intervalsOf] at hl
          | cons c l'' => rw [List.cons_append, intervalsOf_cons_cons] at hl
                          simp at hl
      | cons q qs =>
          rw [hl] at hrec
          rw [List.getLast?_cons_cons]
          exact hrec

theorem intervals_cover : ∀ (l : List ℚ) (a D x : ℚ), a ≤ x → x ≤ D →
    ∃ p ∈ intervalsOf (a :: (l ++ [D])), p.1 ≤ x ∧ x ≤ p.2
  | [], a, D, x, hax, hxD => by
      refine ⟨(a, D), ?_, hax, hxD⟩
      simp [intervalsOf]
  | b :: l', a, D, x, hax, hxD => by
      rw [List.cons_append, intervalsOf_cons_cons]
      by_cases hxb : x ≤ b
      · exact ⟨(a, b), List.mem_cons_self _ _, hax, hxb⟩
      · obtain ⟨p, hp, h1, h2⟩ :=
          intervals_cover l' b D x (le_of_not_le hxb) hxD
        exact ⟨p, List.mem_cons_of_mem _ hp, h1, h2⟩

theorem chain'_le_splitPoints (interior : List ℚ) (D : ℚ) (hD : 0 ≤ D)
    (hs : interior.Sorted (· ≤ ·))
    (hmem : ∀ x ∈ interior, 0 ≤ x ∧ x ≤ D) :
    List.Chain' (· ≤ ·) (splitPointsOf interior D) := by
  rw [List.chain'_iff_pairwise, splitPointsOf, List.pairwise_cons]
  constructor
  · intro y hy
    rcases List.mem_append.1 hy with hy | hy
    · exact (hmem y hy).1
    · simp at hy; subst hy; exact hD
  · rw [List.pairwise_append]
    refine ⟨hs, by simp, ?_⟩
    intro x hx y hy
    simp at hy; subst hy
    exact (hmem x hx).2

theorem isExactPartition_splitPoints (interior : List ℚ) (D : ℚ)
    (hD : 0 < D) (hs : interior.Sorted (· ≤ ·))
    (hmem : ∀ x ∈ interior, 0 ≤ x ∧ x ≤ D) :
    IsExactPartition (intervalsOf (splitPointsOf interior D)) D := by
  refine ⟨?_, ?_, ?_, ?_, ?_⟩
  · cases interior with
    | nil => simp [splitPointsOf, intervalsOf]
    | cons a l => simp [splitPointsOf, List.cons_append, intervalsOf_cons_cons]
  · exact intervals_last interior 0 D
  · exact chain'_snd_fst _
  · exact intervals_start_le_end _
      (chain'_le_splitPoints interior D hD.le hs hmem)
  · intro x hx0 hxD
    exact intervals_cover interior 0 D x hx0 hxD

/-- C1: for every total duration `D > 0` and every list of raw split-point
strings, the interval list the segmenter executes — the consecutive pairs of
`[0] + processed interior points + [D]` — partitions `[0, D]` exactly, for
the video variant (`VideoSplitter.split_video`) and the audio variant
(`AudioSplitter._split_audio_with_ffmpeg`) alike: the first interval starts
at 0, the last ends at `D`, each interval's end equals the next interval's
start, every interval satisfies `start ≤ end`, and all of `[0, D]` is
covered. -/
theorem C1_partition (pf : String → Option ℚ) (D : ℚ) (tps : List String)
    (hD : 0 < D) :
    IsExactPartition
      (intervalsOf (splitPointsOf (videoTimeSeconds pf D tps) D)) D ∧
    IsExactPartition
      (intervalsOf (splitPointsOf (audioTimeSeconds pf D tps) D)) D := by
  constructor
  · refine isExactPartition_splitPoints _ _ hD
      (sorted_videoTimeSeconds pf D tps) ?_
    intro x hx
    exact ((mem_videoTimeSeconds pf D tps x).1 hx).2
  · refine isExactPartition_splitPoints _ _ hD
      (sorted_audioTimeSeconds pf D tps) ?_
    intro x hx
    obtain ⟨-, h1, h2⟩ := (mem_audioTimeSeconds pf D tps x).1 hx
    exact ⟨h1.le, h2.le⟩

/-- Witness for C1: the concrete instance `D = 10`,
split points `["0:0:5"]`. -/
theorem C1_partition_witness :
    (0 : ℚ) < 10 ∧
    (IsExactPartition
      (intervalsOf (splitPointsOf (videoTimeSeconds pf0 10 ["0:0:5"]) 10)) 10 ∧
     IsExactPartition
      (intervalsOf (splitPointsOf (audioTimeSeconds pf0 10 ["0:0:5"]) 10)) 10) :=
  ⟨by norm_num, C1_partition pf0 10 ["0:0:5"] (by norm_num)⟩

/-! ## Concrete parser evaluations (shared by witnesses below) -/

theorem timeB_pf0_005 : timeStrToSecondsB pf0 "0:0:5" = 5 := by
  show (0 * 3600 + 0 * 60 + 5 : ℚ) = 5
  norm_num

theorem timeA_pf0_005 : timeStrToSecondsA pf0 "0:0:5" = 5 := by
  show (0 * 3600 + 0 * 60 + 5 : ℚ) = 5
  norm_num

theorem timeA_pf0_0030 : timeStrToSecondsA pf0 "0:0:30" = 30 := by
  show (0 * 3600 + 0 * 60 + 30 : ℚ) = 30
  norm_num

theorem audioTS_pf0_0030 : audioTimeSeconds pf0 60 ["0:0:30"] = [30] := by
  simp only [audioTimeSeconds, List.map_cons, List.map_nil, timeA_pf0_0030]
  rw [show ([(30 : ℚ)].filter fun s => decide (0 < s) && decide (s < 60))
      = [30] from rfl]
  rw [show pySorted [(30 : ℚ)] = [30] from rfl]
  rw [pyDedup]
  simp [pyDedup]

/-- C2 (counterexample): with duration 10 and the raw points
`["0:0:5", "0:0:5"]` (both parsing to 5), the video segmenter retains
`[5, 5]` — the duplicate is kept — whereas the claim (values strictly
inside `(0, D)`, sorted, deduplicated) demands `[5]`.  The claim is
therefore false for the video variant. -/
theorem C2_counterexample :
    videoTimeSeconds pf0 10 ["0:0:5", "0:0:5"] = [5, 5] ∧
    specInteriorPoints
        ((["0:0:5", "0:0:5"]).map (timeStrToSecondsB pf0)) 10 = [5] ∧
    videoTimeSeconds pf0 10 ["0:0:5", "0:0:5"]
      ≠ specInteriorPoints
          ((["0:0:5", "0:0:5"]).map (timeStrToSecondsB pf0)) 10 := by
  have h1 : videoTimeSeconds pf0 10 ["0:0:5", "0:0:5"] = [5, 5] := by
    simp only [videoTimeSeconds, List.map_cons, List.map_nil, timeB_pf0_005]
    rfl
  have h2 : specInteriorPoints
      ((["0:0:5", "0:0:5"]).map (timeStrToSecondsB pf0)) 10 = [5] := by
    simp only [specInteriorPoints, List.map_cons, List.map_nil, timeB_pf0_005]
    rw [show ([(5 : ℚ), 5].filter fun s => decide (0 < s) && decide (s < 10))
        = [5, 5] from rfl]
    rw [show pySorted [(5 : ℚ), 5] = [5, 5] from rfl]
    rw [pyDedup]
    simp [pyDedup]
  refine ⟨h1, h2, ?_⟩
  rw [h1, h2]
  simp

/-- C2 (amended): the audio variant retains exactly the parsed values
strictly between 0 and `D`, sorted strictly ascending with no duplicates
(matching the spec-side description verbatim); the video variant keeps the
*inclusive* range `0 ≤ s ≤ D` and does not deduplicate: its retained list
is a sorted permutation of all parsed values in `[0, D]`, multiplicity
included. -/
theorem C2_amended (pf : String → Option ℚ) (D : ℚ) (tps : List String) :
    audioTimeSeconds pf D tps
      = specInteriorPoints (tps.map (timeStrToSecondsA pf)) D ∧
    (audioTimeSeconds pf D tps).Sorted (· < ·) ∧
    (∀ x, x ∈ audioTimeSeconds pf D tps ↔
      x ∈ tps.map (timeStrToSecondsA pf) ∧ 0 < x ∧ x < D) ∧
    (videoTimeSeconds pf D tps).Sorted (· ≤ ·) ∧
    (videoTimeSeconds pf D tps).Perm
      ((tps.map (timeStrToSecondsB pf)).filter
        (fun s => decide (0 ≤ s) && decide (s ≤ D))) := by
  refine ⟨rfl, ?_, ?_, sorted_videoTimeSeconds pf D tps, perm_pySorted _⟩
  · exact (sorted_audioTimeSeconds pf D tps).lt_of_le
      (nodup_audioTimeSeconds pf D tps)
  · exact mem_audioTimeSeconds pf D tps

/-! ## Parser lemmas and claims C9, C10 -/

theorem timeStrToSecondsBaseE_ok (pf : String → Option ℚ) (s : String) :
    timeStrToSecondsBaseE pf s = .ok (timeStrToSecondsB pf s) := by
  simp only [timeStrToSecondsB, timeStrToSecondsBaseE, timeStrToSecondsBaseRaw]
  rcases pySplitColon s with _ | ⟨a, _ | ⟨b, _ | ⟨c, _ | ⟨d, rest⟩⟩⟩⟩
  · rfl
  · cases hpa : pf a <;> simp [hpa]
  · cases hpa : pf a <;> cases hpb : pf b <;> simp [hpa, hpb]
  · cases hpa : pf a <;> cases hpb : pf b <;> cases hpc : pf c <;>
      simp [hpa, hpb, hpc]
  · rfl

theorem timeB_zero_of_raw_error (pf : String → Option ℚ) (s : String)
    (e : PyExc) (h : timeStrToSecondsBaseRaw pf s = .error e) :
    timeStrToSecondsB pf s = 0 := by
  simp only [timeStrToSecondsB, timeStrToSecondsBaseE, h]
  rcases e with msg | msg <;> rfl

/-- C9 (counterexample): on the 1-component string `"30"` (whose component
parses as the float 30) the base handler's parser returns 30, but the audio
splitter's parser returns 0 — the two parsers the claim describes as
behaving alike disagree, because the audio parser accepts only the
3-component form. -/
theorem C9_counterexample :
    timeStrToSecondsB pf0 "30" = 30 ∧ timeStrToSecondsA pf0 "30" = 0 ∧
    timeStrToSecondsA pf0 "30" ≠ timeStrToSecondsB pf0 "30" := by
  refine ⟨rfl, rfl, ?_⟩
  rw [show timeStrToSecondsA pf0 "30" = 0 from rfl,
    show timeStrToSecondsB pf0 "30" = 30 from rfl]
  norm_num

/-- C9 (amended): the base handler's parser splits on `':'` and maps 1, 2,
3 components to SS, MM:SS, HH:MM:SS with float components, returning 0.0 on
any parse failure; the audio splitter's parser instead accepts only the
3-component form — on it the two agree — and returns 0.0 for every other
component count. -/
theorem C9_parsers (pf : String → Option ℚ) (s : String) :
    ((pySplitColon s).length = 3 →
        timeStrToSecondsA pf s = timeStrToSecondsB pf s) ∧
    ((pySplitColon s).length ≠ 3 → timeStrToSecondsA pf s = 0) ∧
    (∀ a b c, pySplitColon s = [a, b, c] →
        timeStrToSecondsB pf s
          = (match pf a, pf b, pf c with
             | some h, some m, some sec => h * 3600 + m * 60 + sec
             | _, _, _ => 0)) ∧
    (∀ a b, pySplitColon s = [a, b] →
        timeStrToSecondsB pf s
          = (match pf a, pf b with
             | some m, some sec => m * 60 + sec
             | _, _ => 0)) ∧
    (∀ a, pySplitColon s = [a] → timeStrToSecondsB pf s = (pf a).getD 0) := by
  refine ⟨?_, ?_, ?_, ?_, ?_⟩
  · intro h3
    simp only [timeStrToSecondsA, timeStrToSecondsAudioRaw,
      timeStrToSecondsB, timeStrToSecondsBaseE, timeStrToSecondsBaseRaw]
    rcases hps : pySplitColon s with _ | ⟨a, _ | ⟨b, _ | ⟨c, _ | ⟨d, rest⟩⟩⟩⟩
    · simp [hps] at h3
    · simp [hps] at h3
    · simp [hps] at h3
    · cases hpa : pf a <;> cases hpb : pf b <;> cases hpc : pf c <;>
        simp [hpa, hpb, hpc]
    · simp [hps] at h3
  · intro h3
    simp only [timeStrToSecondsA, timeStrToSecondsAudioRaw]
    rcases hps : pySplitColon s with _ | ⟨a, _ | ⟨b, _ | ⟨c, _ | ⟨d, rest⟩⟩⟩⟩
    · rfl
    · rfl
    · rfl
    · simp [hps] at h3
    · rfl
  · intro a b c hps
    simp only [timeStrToSecondsB, timeStrToSecondsBaseE,
      timeStrToSecondsBaseRaw, hps]
    cases hpa : pf a <;> cases hpb : pf b <;> cases hpc : pf c <;>
      simp [hpa, hpb, hpc]
  · intro a b hps
    simp only [timeStrToSecondsB, timeStrToSecondsBaseE,
      timeStrToSecondsBaseRaw, hps]
    cases hpa : pf a <;> cases hpb : pf b <;> simp [hpa, hpb]
  · intro a hps
    simp only [timeStrToSecondsB, timeStrToSecondsBaseE,
      timeStrToSecondsBaseRaw, hps]
    cases hpa : pf a <;> simp [hpa]

/-- Witness for C9 (amended): on the 3-component string `"0:0:5"` the two
parsers agree. -/
theorem C9_parsers_witness :
    (pySplitColon "0:0:5").length = 3 ∧
    timeStrToSecondsA pf0 "0:0:5" = timeStrToSecondsB pf0 "0:0:5" :=
  ⟨rfl, (C9_parsers pf0 "0:0:5").1 rfl⟩

theorem classify_not_formatError (pf : String → Option ℚ) (D : ℚ)
    (s : String) (p : String × InvalidReason)
    (h : classifyTimePoint pf D s = .inr p) :
    p.2 = InvalidReason.outOfRange := by
  simp only [classifyTimePoint, timeStrToSecondsBaseE_ok pf s] at h
  split at h
  · cases h
  · cases h; rfl

/-- C10: in the facade's `validate_time_points`, for every conversion
function, every list of time strings and every `video_duration ≥ 0`, the
"time format error" branch is unreachable: the inherited parser catches
every parse failure and returns 0.0 — which satisfies
`0 ≤ s ≤ video_duration` — so `invalid_points` only ever contains
out-of-range entries, and every string on which the raw parser body raises
is classified as a valid point. -/
theorem C10_no_format_error (pf : String → Option ℚ) (tps : List String)
    (D : ℚ) (hD : 0 ≤ D) :
    (∀ p ∈ (validate_time_points pf tps D).invalid_points,
        p.2 = InvalidReason.outOfRange) ∧
    (∀ s ∈ tps, ∀ e, timeStrToSecondsBaseRaw pf s = .error e →
        s ∈ (validate_time_points pf tps D).valid_points) := by
  constructor
  · intro p hp
    simp only [validate_time_points, List.mem_filterMap, List.mem_map] at hp
    obtain ⟨c, ⟨s, hs, hc⟩, hcr⟩ := hp
    cases c with
    | inl v => simp [Sum.getRight?] at hcr
    | inr q =>
        simp only [Sum.getRight?, Option.some_inj] at hcr
        subst hcr
        exact classify_not_formatError pf D s q hc
  · intro s hs e he
    have hB := timeB_zero_of_raw_error pf s e he
    have hcl : classifyTimePoint pf D s = .inl s := by
      simp only [classifyTimePoint, timeStrToSecondsBaseE_ok pf s, hB]
      rw [if_pos ⟨le_refl 0, hD⟩]
    simp only [validate_time_points, List.mem_filterMap, List.mem_map]
    exact ⟨.inl s, ⟨s, hs, hcl⟩, rfl⟩

/-- Witness for C10: the malformed string `"bad"` raises in the raw parser
body and is nevertheless classified as a valid point (duration 0). -/
theorem C10_no_format_error_witness :
    (0 : ℚ) ≤ 0 ∧ "bad" ∈ (validate_time_points pf0 ["bad"] 0).valid_points :=
  ⟨le_refl 0, (C10_no_format_error pf0 ["bad"] 0 (le_refl 0)).2 "bad"
    (by simp) (.valueError "could not convert string to float") rfl⟩

/-! ## Claim C8: the transcription model cache -/

/-- C8 (counterexample): a transcription call that needs a reload
(`Loaded("base")`, requested size `"small"`) but whose model constructor
raises leaves both cache fields unchanged, so after that call the cached
model-size key does not equal the requested size — refuting the claim's
unconditional "after every transcription call" invariant. -/
theorem C8_counterexample :
    transcribeModelStep ⟨some 0, some "base"⟩ "small" none
      = (⟨some 0, some "base"⟩, true, true) ∧
    (⟨some 0, some "base"⟩ : STTState).current_model_size ≠ some "small" := by
  constructor
  · rfl
  · simp

/-- C8 (amended): the model cache behaves as claimed on every call whose
load (when one is needed) completes: a call with the cached size and a
loaded model performs no load and leaves the state — in particular the
cached model object — untouched (whatever the constructor would have
returned); a call with a different size or no loaded model constructs a new
model and replaces both cache fields; and after any call in which no load
raised, the cached size equals the requested size.  A call whose load
raises leaves both fields unchanged. -/
theorem C8_model_cache (st : STTState) (size : String) (fresh m : ℕ) :
    (st.current_model_size = some size → st.whisper_model = some m →
      (∀ loadResult, transcribeModelStep st size loadResult
        = (st, false, false))) ∧
    ((st.whisper_model = none ∨ st.current_model_size ≠ some size) →
      transcribeModelStep st size (some fresh)
        = (⟨some fresh, some size⟩, true, false)) ∧
    (∀ loadResult st' didLoad,
      transcribeModelStep st size loadResult = (st', didLoad, false) →
      st'.current_model_size = some size) ∧
    (∀ st' didLoad,
      transcribeModelStep st size none = (st', didLoad, true) → st' = st) := by
  refine ⟨?_, ?_, ?_, ?_⟩
  · intro hsize hmodel loadResult
    unfold transcribeModelStep
    rw [if_neg]
    push_neg
    refine ⟨fun h => ?_, hsize⟩
    rw [h] at hmodel
    cases hmodel
  · intro h
    unfold transcribeModelStep
    rw [if_pos h]
  · intro loadResult st' didLoad h
    unfold transcribeModelStep at h
    split at h
    · cases loadResult with
      | some v => cases h; rfl
      | none => cases h
    · rename_i hcond
      push_neg at hcond
      cases h
      exact hcond.2
  · intro st' didLoad h
    unfold transcribeModelStep at h
    split at h
    · cases h; rfl
    · cases h

/-- Witness for C8 (amended): from the freshly initialised state a call for
`"base"` loads model 1 and caches size `"base"`. -/
theorem C8_model_cache_witness :
    (sttInit.whisper_model = none ∨ sttInit.current_model_size ≠ some "base") ∧
    transcribeModelStep sttInit "base" (some 1)
      = (⟨some 1, some "base"⟩, true, false) :=
  ⟨Or.inl rfl, (C8_model_cache sttInit "base" 1 0).2.1 (Or.inl rfl)⟩

/-! ## Claim C4: the `split_audio` operation boundary -/

/-- C4: with ffmpeg.exe missing (the fast path raises immediately after
reporting progress 10) and pydub not installed, `split_audio` does not
return a result dictionary at all: the fallback's `AudioSegment is None`
check raises outside its own `try` block, inside `split_audio`'s `except`
handler, and the exception escapes the public operation — contradicting the
spec's "no operation raises uncaught" contract and the function's own
documented dictionary return contract. -/
theorem C4_uncaught_exception :
    split_audio audioEnvNoTools pf0 "a.mp3" "a" ".mp3" ["0:0:5"] "out"
      = (⟨[10], []⟩, .error (.exc "pydub未安装，无法使用备用拆分方法")) := rfl

/-! ## Claim C3: behaviour when no valid split point exists -/

theorem audioTimeSeconds_nil (pf : String → Option ℚ) (D : ℚ) :
    audioTimeSeconds pf D [] = [] := by
  simp [audioTimeSeconds, pySorted, pyDedup]

theorem audioTimeMs_nil (pf : String → Option ℚ) (L : ℤ) :
    audioTimeMs pf L [] = [] := by
  simp [audioTimeMs, pySorted, pyDedup]

theorem splitAudioWithFfmpeg_error_of_empty (env : AudioEnv)
    (pf : String → Option ℚ) (ap base ext od : String) (tps : List String)
    (h1 : ∀ D : ℚ, env.probeDuration = some D →
      audioTimeSeconds pf D tps = []) :
    ∃ e, (splitAudioWithFfmpeg env pf ap base ext tps od).2 = .error e := by
  unfold splitAudioWithFfmpeg
  cases hex : env.ffmpegExists
  · exact ⟨.exc "找不到ffmpeg.exe", by simp⟩
  · cases hpD : env.probeDuration with
    | none => exact ⟨.exc "无法获取音频时长", by simp⟩
    | some D => exact ⟨.exc "没有有效的拆分点。", by simp [h1 D hpD]⟩

theorem splitAudioWithPydub_no_ok (env : AudioEnv)
    (pf : String → Option ℚ) (ap base ext od : String) (tps : List String)
    (h2 : ∀ L : ℤ, env.pydubLoadMs = some L → audioTimeMs pf L tps = []) :
    ∀ files msg, (splitAudioWithPydub env pf ap base ext tps od).2
      ≠ .ok (.ok files msg) := by
  intro files msg
  unfold splitAudioWithPydub
  cases hpi : env.pydubInstalled
  · simp
  · cases hpL : env.pydubLoadMs with
    | none => simp
    | some L => simp [h2 L hpL]

/-- C3 (amended): the audio variant behaves as claimed — when no parsed
value lies strictly inside `(0, D)` its fast path raises the "no valid
split points" error, and `split_audio` as a whole never returns a success
result (it returns a failure dictionary, or, with pydub missing, propagates
an exception).  The video variant does not: see the counterexample, it
silently executes a single whole-file segment and returns success. -/
theorem C3_no_valid_points_audio (env : AudioEnv) (pf : String → Option ℚ)
    (ap base ext od : String) (tps : List String)
    (h1 : ∀ D : ℚ, env.probeDuration = some D →
      audioTimeSeconds pf D tps = [])
    (h2 : ∀ L : ℤ, env.pydubLoadMs = some L → audioTimeMs pf L tps = []) :
    (∀ D : ℚ, env.ffmpegExists = true → env.probeDuration = some D →
      splitAudioWithFfmpeg env pf ap base ext tps od
        = (⟨[10, 20], []⟩, .error (.exc "没有有效的拆分点。"))) ∧
    (∀ files msg, (split_audio env pf ap base ext tps od).2
      ≠ .ok (.ok files msg)) := by
  constructor
  · intro D hex hpD
    unfold splitAudioWithFfmpeg
    rw [hex, hpD]
    simp [h1 D hpD]
  · intro files msg
    obtain ⟨e, he⟩ :=
      splitAudioWithFfmpeg_error_of_empty env pf ap base ext od tps h1
    unfold split_audio
    rcases hsa : splitAudioWithFfmpeg env pf ap base ext tps od with ⟨tr, res⟩
    rw [hsa] at he
    simp only at he
    subst he
    rcases hsp : splitAudioWithPydub env pf ap base ext tps od with ⟨tr2, r2⟩
    have := splitAudioWithPydub_no_ok env pf ap base ext od tps h2 files msg
    rw [hsp] at this
    simpa using this

/-- Witness for C3 (amended): the all-success environment with an empty
split-point list — the fast path raises the "no valid split points" error
and the overall call never reports success. -/
theorem C3_no_valid_points_audio_witness :
    splitAudioWithFfmpeg audioEnvOk pf0 "a.mp3" "a" ".mp3" [] "out"
      = (⟨[10, 20], []⟩, .error (.exc "没有有效的拆分点。")) ∧
    (∀ files msg, (split_audio audioEnvOk pf0 "a.mp3" "a" ".mp3" [] "out").2
      ≠ .ok (.ok files msg)) := by
  have h := C3_no_valid_points_audio audioEnvOk pf0 "a.mp3" "a" ".mp3" "out" []
    (fun D _ => audioTimeSeconds_nil pf0 D) (fun L _ => audioTimeMs_nil pf0 L)
  exact ⟨h.1 60 rfl rfl, h.2⟩

/-- C3 (counterexample): with every external step succeeding (duration
60 s) and an empty split-point list — so no parsed value lies strictly
inside `(0, 60)` — `VideoSplitter.split_video` does not report "no valid
split points": it silently executes the single whole-file interval
`[0, 60]` and returns success with one output file. -/
theorem C3_counterexample :
    (split_video videoEnvOk pf0 "v.mp4" "v" [] "out").2
      = .ok ["out/v_part_01.mp4"] "成功拆分" := rfl

/-! ## Loop characterisation lemmas for the audio splitter -/

theorem ffmpegSegLoop_all_ok (env : AudioEnv) (ap od base ext : String)
    (n : ℕ) :
    ∀ l : List (ℕ × (ℚ × ℚ)), (∀ p ∈ l, env.ffmpegRunOk p.1 = true) →
      ffmpegSegLoop env ap od base ext n l
        = (⟨l.map (fun p => ffmpegProgress n p.1),
            l.map (fun p => .ffmpegCall (audioFfmpegCmd ap p.2.1
              (p.2.2 - p.2.1) (joinPath od (partName base ext p.1))))⟩,
           .ok (l.map (fun p => joinPath od (partName base ext p.1))))
  | [], _ => rfl
  | (i, (s, e)) :: rest, hok => by
      have hi : env.ffmpegRunOk i = true := hok _ (List.mem_cons_self _ _)
      have hrest := ffmpegSegLoop_all_ok env ap od base ext n rest
        (fun p hp => hok p (List.mem_cons_of_mem _ hp))
      simp only [ffmpegSegLoop]
      rw [if_pos hi, hrest]
      rfl

theorem ffmpegSegLoop_invocations_prefixOf (env : AudioEnv)
    (ap od base ext : String) (n : ℕ) :
    ∀ l : List (ℕ × (ℚ × ℚ)),
      (ffmpegSegLoop env ap od base ext n l).1.invocations <+:
        l.map (fun p => InvokeEvent.ffmpegCall (audioFfmpegCmd ap p.2.1
          (p.2.2 - p.2.1) (joinPath od (partName base ext p.1))))
  | [] => by simp [ffmpegSegLoop, Trace.nil]
  | (i, (s, e)) :: rest => by
      simp only [ffmpegSegLoop]
      cases hi : env.ffmpegRunOk i
      · rw [if_neg Bool.false_ne_true]
        exact ⟨_, rfl⟩
      · rw [if_pos rfl]
        have hrec := ffmpegSegLoop_invocations_prefixOf env ap od base ext n rest
        rcases hl : ffmpegSegLoop env ap od base ext n rest with ⟨tr, res⟩
        rw [hl] at hrec
        obtain ⟨t, ht⟩ := hrec
        exact ⟨t, by simp only [List.map_cons, List.cons_append, ht]⟩

theorem pydubSegLoop_success (env : AudioEnv) (od base ext : String)
    (n : ℕ) :
    ∀ (l : List (ℕ × (ℤ × ℤ))) (files : List String),
      (pydubSegLoop env od base ext n l).2 = .ok files →
      files = l.map (fun p => joinPath od (partName base ext p.1)) ∧
      (pydubSegLoop env od base ext n l).1.invocations
        = l.map (fun p => InvokeEvent.pydubExport p.2.1 p.2.2
            (joinPath od (partName base ext p.1)))
  | [], files, h => by
      simp only [pydubSegLoop] at h ⊢
      cases h
      exact ⟨rfl, rfl⟩
  | (i, (s, e)) :: rest, files, h => by
      simp only [pydubSegLoop] at h ⊢
      revert h
      cases hi : env.exportOk i
      · rw [if_neg Bool.false_ne_true]
        intro h
        simp at h
      · rw [if_pos rfl]
        rcases hl : pydubSegLoop env od base ext n rest with ⟨tr, res⟩
        cases res with
        | error e0 =>
            intro h
            simp [Except.map] at h
        | ok v =>
            intro h
            simp only [Except.map] at h
            cases h
            have hrec := pydubSegLoop_success env od base ext n rest v
            rw [hl] at hrec
            obtain ⟨h1, h2⟩ := hrec rfl
            constructor
            · rw [List.map_cons, h1]
            · rw [List.map_cons, ← h2]

/-- A fully successful fast-path run: ffmpeg present, duration probed,
non-empty plan, writable output directory, every invocation exiting 0. -/
theorem splitAudioWithFfmpeg_run (env : AudioEnv) (pf : String → Option ℚ)
    (ap base ext od : String) (tps : List String) (D : ℚ)
    (hex : env.ffmpegExists = true) (hpD : env.probeDuration = some D)
    (hne : audioTimeSeconds pf D tps ≠ []) (hmk : env.mkdirOk = true)
    (hok : ∀ i, env.ffmpegRunOk i = true) :
    splitAudioWithFfmpeg env pf ap base ext tps od
      = (⟨[10, 20, 30]
            ++ (enumFrom 0 (intervalsOf
                (splitPointsOf (audioTimeSeconds pf D tps) D))).map
              (fun p => ffmpegProgress
                (splitPointsOf (audioTimeSeconds pf D tps) D).length p.1)
            ++ [100],
          (enumFrom 0 (intervalsOf
              (splitPointsOf (audioTimeSeconds pf D tps) D))).map
            (fun p => .ffmpegCall (audioFfmpegCmd ap p.2.1 (p.2.2 - p.2.1)
              (joinPath od (partName base ext p.1))))⟩,
         .ok (.ok ((enumFrom 0 (intervalsOf
              (splitPointsOf (audioTimeSeconds pf D tps) D))).map
            (fun p => joinPath od (partName base ext p.1))) "音频拆分完成")) := by
  have hloop := ffmpegSegLoop_all_ok env ap od base ext
    (splitPointsOf (audioTimeSeconds pf D tps) D).length
    (enumFrom 0 (intervalsOf (splitPointsOf (audioTimeSeconds pf D tps) D)))
    (fun p _ => hok p.1)
  unfold splitAudioWithFfmpeg
  rw [hex, hpD]
  simp [hne, hmk, hloop]

/-! ## Claim C5: the fast-path transcoder commands -/

/-- C5 (amended): on a successful audio fast-path run the external
transcoder is invoked exactly once per planned interval, in plan order,
each invocation carrying stream-copy codec selection (`-c copy`), an
explicit duration argument `-t` equal to `end - start` (not an absolute end
time), and the negative-timestamp-correction flag
(`-avoid_negative_ts make_zero`) — but with the seek argument `-ss` placed
*after* the input argument `-i`, not before it as the claim states. -/
theorem C5_fast_path_commands (env : AudioEnv) (pf : String → Option ℚ)
    (ap base ext od : String) (tps : List String) (D : ℚ)
    (hex : env.ffmpegExists = true) (hpD : env.probeDuration = some D)
    (hne : audioTimeSeconds pf D tps ≠ []) (hmk : env.mkdirOk = true)
    (hok : ∀ i, env.ffmpegRunOk i = true) :
    (splitAudioWithFfmpeg env pf ap base ext tps od).1.invocations
      = (enumFrom 0 (intervalsOf
          (splitPointsOf (audioTimeSeconds pf D tps) D))).map
          (fun p => InvokeEvent.ffmpegCall (audioFfmpegCmd ap p.2.1
            (p.2.2 - p.2.1) (joinPath od (partName base ext p.1)))) ∧
    (∀ (start dur : ℚ) (out : String),
      audioFfmpegCmd ap start dur out
        = [ffmpegExePath] ++ ["-i", ap] ++ ["-ss", toString start]
          ++ ["-t", toString dur] ++ ["-c", "copy"]
          ++ ["-avoid_negative_ts", "make_zero"] ++ ["-y", out]) := by
  constructor
  · rw [splitAudioWithFfmpeg_run env pf ap base ext od tps D hex hpD hne
      hmk hok]
  · intro start dur out
    rfl

/-- Witness for C5 (amended): the all-success environment with one interior
split point at 30 s of a 60 s file. -/
theorem C5_fast_path_commands_witness :
    audioEnvOk.ffmpegExists = true ∧
    (splitAudioWithFfmpeg audioEnvOk pf0 "a.mp3" "a" ".mp3" ["0:0:30"]
        "out").1.invocations
      = (enumFrom 0 (intervalsOf
          (splitPointsOf (audioTimeSeconds pf0 60 ["0:0:30"]) 60))).map
          (fun p => InvokeEvent.ffmpegCall (audioFfmpegCmd "a.mp3" p.2.1
            (p.2.2 - p.2.1) (joinPath "out" (partName "a" ".mp3" p.1)))) :=
  ⟨rfl, (C5_fast_path_commands audioEnvOk pf0 "a.mp3" "a" ".mp3" "out"
    ["0:0:30"] 60 rfl rfl (by rw [audioTS_pf0_0030]; simp) rfl
    (fun _ => rfl)).1⟩

/-- C5 (counterexample): in the first command actually executed by the fast
path the input argument `-i` sits at position 1 and the seek argument `-ss`
at position 3 — the seek is placed after the input, refuting the claim's
"seek argument placed before the input argument". -/
theorem C5_counterexample :
    ((splitAudioWithFfmpeg audioEnvOk pf0 "a.mp3" "a" ".mp3" ["0:0:30"]
        "out").1.invocations.map invArgs).head?
      = some (audioFfmpegCmd "a.mp3" 0 30 "out/a_part_01.mp3") ∧
    (audioFfmpegCmd "a.mp3" 0 30 "out/a_part_01.mp3").take 4
      = ["ffmpeg.exe", "-i", "a.mp3", "-ss"] := by
  constructor
  · rw [splitAudioWithFfmpeg_run audioEnvOk pf0 "a.mp3" "a" ".mp3" "out"
      ["0:0:30"] 60 rfl rfl (by rw [audioTS_pf0_0030]; simp) rfl
      (fun _ => rfl)]
    rw [audioTS_pf0_0030]
    simp [splitPointsOf, intervalsOf, enumFrom, invArgs, joinPath, partName]
    rfl
  · rfl

/-! ## Claim C6: whole-operation fallback -/

theorem splitAudioWithFfmpeg_invocations_prefixOf (env : AudioEnv)
    (pf : String → Option ℚ) (ap base ext od : String) (tps : List String)
    (D : ℚ) (hpD : env.probeDuration = some D) :
    (splitAudioWithFfmpeg env pf ap base ext tps od).1.invocations <+:
      (enumFrom 0 (intervalsOf
        (splitPointsOf (audioTimeSeconds pf D tps) D))).map
        (fun p => InvokeEvent.ffmpegCall (audioFfmpegCmd ap p.2.1
          (p.2.2 - p.2.1) (joinPath od (partName base ext p.1)))) := by
  unfold splitAudioWithFfmpeg
  cases hex : env.ffmpegExists
  · simp
  · rw [hpD]
    by_cases hne : audioTimeSeconds pf D tps = []
    · simp [hne]
    · cases hmk : env.mkdirOk
      · simp [hne, hmk]
      · have hpre := ffmpegSegLoop_invocations_prefixOf env ap od base ext
          (splitPointsOf (audioTimeSeconds pf D tps) D).length
          (enumFrom 0 (intervalsOf (splitPointsOf (audioTimeSeconds pf D tps) D)))
        rcases hl : ffmpegSegLoop env ap od base ext
          (splitPointsOf (audioTimeSeconds pf D tps) D).length
          (enumFrom 0 (intervalsOf (splitPointsOf (audioTimeSeconds pf D tps) D)))
          with ⟨trL, res⟩
        rw [hl] at hpre
        cases res <;> simp [hne, hl] <;> exact hpre

theorem splitAudioWithPydub_ok_characterisation (env : AudioEnv)
    (pf : String → Option ℚ) (ap base ext od : String) (tps : List String)
    (L : ℤ) (files : List String) (msg : String)
    (hpL : env.pydubLoadMs = some L)
    (hok2 : (splitAudioWithPydub env pf ap base ext tps od).2
      = .ok (.ok files msg)) :
    files = (enumFrom 0 (intervalsOf
        (splitPointsOf (audioTimeMs pf L tps) L))).map
        (fun p => joinPath od (partName base ext p.1)) ∧
    (splitAudioWithPydub env pf ap base ext tps od).1.invocations
      = (enumFrom 0 (intervalsOf
          (splitPointsOf (audioTimeMs pf L tps) L))).map
          (fun p => InvokeEvent.pydubExport p.2.1 p.2.2
            (joinPath od (partName base ext p.1))) := by
  unfold splitAudioWithPydub at hok2 ⊢
  cases hpi : env.pydubInstalled
  · simp [hpi] at hok2
  · simp only [hpi] at hok2 ⊢
    rw [hpL] at hok2 ⊢
    by_cases hms : audioTimeMs pf L tps = []
    · simp [hms] at hok2
    · simp [hms] at hok2 ⊢
      cases hmk : env.pydubMkdirOk
      · simp [hmk] at hok2
      · simp [hmk] at hok2 ⊢
        have hsucc := pydubSegLoop_success env od base ext
          (splitPointsOf (audioTimeMs pf L tps) L).length
          (enumFrom 0 (intervalsOf (splitPointsOf (audioTimeMs pf L tps) L)))
        set r := (pydubSegLoop env od base ext
            (splitPointsOf (audioTimeMs pf L tps) L).length
            (enumFrom 0 (intervalsOf
              (splitPointsOf (audioTimeMs pf L tps) L)))).2 with hres
        clear_value r
        cases r with
        | error e0 => simp at hok2
        | ok v =>
            obtain ⟨h1, h2⟩ := hsucc v rfl
            simp at hok2 ⊢
            obtain ⟨hv, -⟩ := hok2
            refine ⟨?_, by simpa using h2⟩
            rw [← hv]
            exact h1

/-- C6: when the fast path raises — for any reason, at any step —
`split_audio` reruns the entire operation from scratch with the pydub
implementation on the original arguments: the overall result is exactly
the pydub result and the trace is the fast-path trace followed by the
pydub trace; on a successful fallback the returned files are precisely the
pydub exports of every interval of the pydub plan (so fast-path and
fallback outputs are never mixed); and on the fast path each planned
interval is invoked at most once, in plan order (the fast-path invocation
list is a prefix of the planned command list — no per-interval retry). -/
theorem C6_fallback_whole_operation (env : AudioEnv) (pf : String → Option ℚ)
    (ap base ext od : String) (tps : List String)
    (hfail : ∃ e, (splitAudioWithFfmpeg env pf ap base ext tps od).2
      = .error e) :
    (split_audio env pf ap base ext tps od)
      = ((splitAudioWithFfmpeg env pf ap base ext tps od).1.app
          (splitAudioWithPydub env pf ap base ext tps od).1,
         (splitAudioWithPydub env pf ap base ext tps od).2) ∧
    (∀ D : ℚ, env.probeDuration = some D →
      (splitAudioWithFfmpeg env pf ap base ext tps od).1.invocations <+:
        (enumFrom 0 (intervalsOf
          (splitPointsOf (audioTimeSeconds pf D tps) D))).map
          (fun p => InvokeEvent.ffmpegCall (audioFfmpegCmd ap p.2.1
            (p.2.2 - p.2.1) (joinPath od (partName base ext p.1))))) ∧
    (∀ (files : List String) (msg : String) (L : ℤ),
      env.pydubLoadMs = some L →
      (splitAudioWithPydub env pf ap base ext tps od).2
        = .ok (.ok files msg) →
      files = (enumFrom 0 (intervalsOf
          (splitPointsOf (audioTimeMs pf L tps) L))).map
          (fun p => joinPath od (partName base ext p.1)) ∧
      (splitAudioWithPydub env pf ap base ext tps od).1.invocations
        = (enumFrom 0 (intervalsOf
            (splitPointsOf (audioTimeMs pf L tps) L))).map
            (fun p => InvokeEvent.pydubExport p.2.1 p.2.2
              (joinPath od (partName base ext p.1)))) := by
  obtain ⟨e, he⟩ := hfail
  refine ⟨?_, ?_, ?_⟩
  · unfold split_audio
    rcases hsa : splitAudioWithFfmpeg env pf ap base ext tps od with ⟨tr, res⟩
    rw [hsa] at he
    simp only at he
    subst he
    rcases hsp : splitAudioWithPydub env pf ap base ext tps od with ⟨tr2, r2⟩
    rfl
  · intro D hpD
    exact splitAudioWithFfmpeg_invocations_prefixOf env pf ap base ext od
      tps D hpD
  · intro files msg L hpL hok2
    exact splitAudioWithPydub_ok_characterisation env pf ap base ext od
      tps L files msg hpL hok2

/-- Witness for C6: ffmpeg present but every segment invocation exiting
non-zero — the fast path raises after its first invocation and
`split_audio` becomes the pydub run on the original arguments. -/
theorem C6_fallback_whole_operation_witness :
    (splitAudioWithFfmpeg audioEnvRunFail pf0 "a.mp3" "a" ".mp3" ["0:0:30"]
        "out").2 = .error (.exc ("FFmpeg拆分失败: " ++ "")) ∧
    split_audio audioEnvRunFail pf0 "a.mp3" "a" ".mp3" ["0:0:30"] "out"
      = ((splitAudioWithFfmpeg audioEnvRunFail pf0 "a.mp3" "a" ".mp3"
            ["0:0:30"] "out").1.app
          (splitAudioWithPydub audioEnvRunFail pf0 "a.mp3" "a" ".mp3"
            ["0:0:30"] "out").1,
         (splitAudioWithPydub audioEnvRunFail pf0 "a.mp3" "a" ".mp3"
            ["0:0:30"] "out").2) := by
  have hfast : (splitAudioWithFfmpeg audioEnvRunFail pf0 "a.mp3" "a" ".mp3"
      ["0:0:30"] "out").2 = .error (.exc ("FFmpeg拆分失败: " ++ "")) := by
    unfold splitAudioWithFfmpeg
    simp [audioEnvRunFail, audioEnvOk, audioTS_pf0_0030, splitPointsOf,
      intervalsOf, enumFrom, ffmpegSegLoop]
  exact ⟨hfast, (C6_fallback_whole_operation audioEnvRunFail pf0 "a.mp3" "a"
    ".mp3" "out" ["0:0:30"] ⟨_, hfast⟩).1⟩

/-! ## Claim C7: progress monotonicity -/

theorem mem_of_getLast?Mem {α : Type} {l : List α} {a : α}
    (h : a ∈ l.getLast?) : a ∈ l := by
  obtain ⟨hne, rfl⟩ := List.mem_getLast?_eq_getLast h
  exact List.getLast_mem hne

theorem ffmpegProgress_mono (n : ℕ) {i j : ℕ} (h : i ≤ j) :
    ffmpegProgress n i ≤ ffmpegProgress n j := by
  unfold ffmpegProgress
  have hd : (i + 1) * 60 / n ≤ (j + 1) * 60 / n :=
    Nat.div_le_div_right (Nat.mul_le_mul_right _ (by omega))
  exact_mod_cast Nat.add_le_add_left hd 30

theorem ffmpegProgress_ge_30 (n i : ℕ) : 30 ≤ ffmpegProgress n i := by
  unfold ffmpegProgress
  exact_mod_cast Nat.le_add_right 30 _

theorem ffmpegProgress_le_100 (n i : ℕ) (h : i + 1 ≤ n) :
    ffmpegProgress n i ≤ 100 := by
  have hn : 0 < n := Nat.lt_of_lt_of_le (Nat.succ_pos i) h
  have hb : (i + 1) * 60 / n ≤ 60 := by
    have h1 : (i + 1) * 60 ≤ 60 * n := by
      calc (i + 1) * 60 ≤ n * 60 := Nat.mul_le_mul_right 60 h
        _ = 60 * n := Nat.mul_comm n 60
    calc (i + 1) * 60 / n ≤ 60 * n / n := Nat.div_le_div_right h1
      _ = 60 := Nat.mul_div_cancel 60 hn
  unfold ffmpegProgress
  revert hb
  generalize (i + 1) * 60 / n = a
  intro hb
  calc ((30 + a : ℕ) : ℤ) ≤ ((90 : ℕ) : ℤ) := Nat.cast_le.mpr (by omega)
    _ ≤ 100 := by norm_num

theorem chain'_map_range' (f : ℕ → ℤ) (hf : ∀ j, f j ≤ f (j + 1)) :
    ∀ (k i : ℕ), List.Chain' (· ≤ ·) ((List.range' i k).map f)
  | 0, i => by simp
  | k + 1, i => by
      rw [List.range'_succ, List.map_cons, List.chain'_cons']
      refine ⟨?_, chain'_map_range' f hf k (i + 1)⟩
      intro y hy
      cases k with
      | zero => simp at hy
      | succ k' =>
          rw [List.range'_succ, List.map_cons, List.head?_cons,
            Option.mem_some_iff] at hy
          rw [← hy]
          exact hf i

/-- Monotone glueing of the fixed setup progress `[10, 20, 30]`, a
monotone in-loop block with values in `[30, 100]`, and the final `100`. -/
theorem chain'_progress_block (L : List ℤ) (hL : List.Chain' (· ≤ ·) L)
    (h30 : ∀ x ∈ L, 30 ≤ x) (h100 : ∀ x ∈ L, x ≤ 100) :
    List.Chain' (· ≤ ·) (([10, 20, 30] : List ℤ) ++ L ++ [100]) ∧
    List.Chain' (· ≤ ·) (([10, 20, 30] : List ℤ) ++ L) := by
  have hpre : List.Chain' (· ≤ ·) (([10, 20, 30] : List ℤ) ++ L) := by
    rw [List.chain'_append]
    refine ⟨by simp [List.chain'_cons], hL, ?_⟩
    intro x hx y hy
    have hx3 : 30 = x := by simpa using hx
    rw [← hx3]
    exact h30 y (List.mem_of_mem_head? hy)
  refine ⟨?_, hpre⟩
  rw [List.chain'_append]
  refine ⟨hpre, List.chain'_singleton 100, ?_⟩
  intro x hx y hy
  have hy100 : 100 = y := by simpa using hy
  rw [← hy100]
  have hxmem := mem_of_getLast?Mem hx
  rcases List.mem_append.1 hxmem with hx1 | hx2
  · have : x = 10 ∨ x = 20 ∨ x = 30 := by simpa using hx1
    rcases this with rfl | rfl | rfl <;> norm_num
  · exact h100 x hx2

theorem length_intervalsOf {α : Type} (pts : List α) :
    (intervalsOf pts).length = pts.length - 1 := by
  simp [intervalsOf, List.length_zip, List.length_tail]

theorem ffmpegSegLoop_progress_range (env : AudioEnv)
    (ap od base ext : String) (n : ℕ) :
    ∀ (xs : List (ℚ × ℚ)) (i : ℕ),
      ∃ k, k ≤ xs.length ∧
        (ffmpegSegLoop env ap od base ext n (enumFrom i xs)).1.progress
          = (List.range' i k).map (ffmpegProgress n)
  | [], i => ⟨0, by simp [enumFrom, ffmpegSegLoop, Trace.nil]⟩
  | (s, e) :: xs, i => by
      simp only [enumFrom, ffmpegSegLoop]
      cases hi : env.ffmpegRunOk i
      · rw [if_neg Bool.false_ne_true]
        exact ⟨0, by simp⟩
      · rw [if_pos rfl]
        obtain ⟨k, hk, hp⟩ :=
          ffmpegSegLoop_progress_range env ap od base ext n xs (i + 1)
        rcases hl : ffmpegSegLoop env ap od base ext n (enumFrom (i + 1) xs)
          with ⟨tr, res⟩
        rw [hl] at hp
        refine ⟨k + 1, by simpa using hk, ?_⟩
        rw [List.range'_succ, List.map_cons]
        simpa using hp

theorem pydubSegLoop_progress_range (env : AudioEnv)
    (od base ext : String) (n : ℕ) :
    ∀ (xs : List (ℤ × ℤ)) (i : ℕ),
      ∃ k, k ≤ xs.length ∧
        (pydubSegLoop env od base ext n (enumFrom i xs)).1.progress
          = (List.range' i k).map (ffmpegProgress n)
  | [], i => ⟨0, by simp [enumFrom, pydubSegLoop, Trace.nil]⟩
  | (s, e) :: xs, i => by
      simp only [enumFrom, pydubSegLoop]
      cases hi : env.exportOk i
      · rw [if_neg Bool.false_ne_true]
        exact ⟨0, by simp⟩
      · rw [if_pos rfl]
        obtain ⟨k, hk, hp⟩ :=
          pydubSegLoop_progress_range env od base ext n xs (i + 1)
        rcases hl : pydubSegLoop env od base ext n (enumFrom (i + 1) xs)
          with ⟨tr, res⟩
        rw [hl] at hp
        refine ⟨k + 1, by simpa using hk, ?_⟩
        rw [List.range'_succ, List.map_cons]
        simpa using hp

theorem splitAudioWithFfmpeg_progress_chain (env : AudioEnv)
    (pf : String → Option ℚ) (ap base ext od : String) (tps : List String) :
    List.Chain' (· ≤ ·)
      (splitAudioWithFfmpeg env pf ap base ext tps od).1.progress := by
  unfold splitAudioWithFfmpeg
  cases hex : env.ffmpegExists
  · simp
  · cases hpD : env.probeDuration with
    | none => simp
    | some D =>
        by_cases hne : audioTimeSeconds pf D tps = []
        · simp [hne, List.chain'_cons]
        · cases hmk : env.mkdirOk
          · simp [hne, List.chain'_cons]
          · obtain ⟨k, hk, hp⟩ := ffmpegSegLoop_progress_range env ap od
              base ext (splitPointsOf (audioTimeSeconds pf D tps) D).length
              (intervalsOf (splitPointsOf (audioTimeSeconds pf D tps) D)) 0
            rcases hl : ffmpegSegLoop env ap od base ext
                (splitPointsOf (audioTimeSeconds pf D tps) D).length
                (enumFrom 0 (intervalsOf
                  (splitPointsOf (audioTimeSeconds pf D tps) D)))
              with ⟨trL, res⟩
            rw [hl] at hp
            have hchain : List.Chain' (· ≤ ·) trL.progress := by
              rw [hp]
              exact chain'_map_range' _
                (fun j => ffmpegProgress_mono _ (by omega)) k 0
            have h30 : ∀ x ∈ trL.progress, 30 ≤ x := by
              rw [hp]
              intro x hx
              obtain ⟨j, -, rfl⟩ := List.mem_map.1 hx
              exact ffmpegProgress_ge_30 _ _
            have h100 : ∀ x ∈ trL.progress, x ≤ 100 := by
              rw [hp]
              intro x hx
              obtain ⟨j, hj, rfl⟩ := List.mem_map.1 hx
              have hj2 := List.mem_range'_1.1 hj
              have hlen := length_intervalsOf
                (splitPointsOf (audioTimeSeconds pf D tps) D)
              have hnn : 1 ≤ (splitPointsOf
                  (audioTimeSeconds pf D tps) D).length := by
                simp [splitPointsOf]
              exact ffmpegProgress_le_100 _ _ (by omega)
            have hblock := chain'_progress_block trL.progress hchain h30 h100
            simp only [hne, hmk]
            cases res with
            | ok files => simpa [hne, hl] using hblock.1
            | error e0 => simpa [hne, hl, Trace.app] using hblock.2

theorem splitAudioWithPydub_progress_chain (env : AudioEnv)
    (pf : String → Option ℚ) (ap base ext od : String) (tps : List String) :
    List.Chain' (· ≤ ·)
      (splitAudioWithPydub env pf ap base ext tps od).1.progress := by
  unfold splitAudioWithPydub
  cases hpi : env.pydubInstalled
  · simp [Trace.nil]
  · cases hpL : env.pydubLoadMs with
    | none => simp
    | some L =>
        by_cases hms : audioTimeMs pf L tps = []
        · simp [hms, List.chain'_cons]
        · cases hmk : env.pydubMkdirOk
          · simp [hms, List.chain'_cons]
          · obtain ⟨k, hk, hp⟩ := pydubSegLoop_progress_range env od
              base ext (splitPointsOf (audioTimeMs pf L tps) L).length
              (intervalsOf (splitPointsOf (audioTimeMs pf L tps) L)) 0
            rcases hl : pydubSegLoop env od base ext
                (splitPointsOf (audioTimeMs pf L tps) L).length
                (enumFrom 0 (intervalsOf
                  (splitPointsOf (audioTimeMs pf L tps) L)))
              with ⟨trL, res⟩
            rw [hl] at hp
            have hchain : List.Chain' (· ≤ ·) trL.progress := by
              rw [hp]
              exact chain'_map_range' _
                (fun j => ffmpegProgress_mono _ (by omega)) k 0
            have h30 : ∀ x ∈ trL.progress, 30 ≤ x := by
              rw [hp]
              intro x hx
              obtain ⟨j, -, rfl⟩ := List.mem_map.1 hx
              exact ffmpegProgress_ge_30 _ _
            have h100 : ∀ x ∈ trL.progress, x ≤ 100 := by
              rw [hp]
              intro x hx
              obtain ⟨j, hj, rfl⟩ := List.mem_map.1 hx
              have hj2 := List.mem_range'_1.1 hj
              have hlen := length_intervalsOf
                (splitPointsOf (audioTimeMs pf L tps) L)
              have hnn : 1 ≤ (splitPointsOf (audioTimeMs pf L tps) L).length := by
                simp [splitPointsOf]
              exact ffmpegProgress_le_100 _ _ (by omega)
            have hblock := chain'_progress_block trL.progress hchain h30 h100
            simp only [hms, hmk]
            cases res with
            | ok files => simpa [hms, hl] using hblock.1
            | error e0 => simpa [hms, hl, Trace.app] using hblock.2

theorem videoProgress_mono (total : ℕ) {i j : ℕ} (h : i ≤ j) :
    videoProgress total i ≤ videoProgress total j := by
  unfold videoProgress
  have harg : (((i : ℚ) + 1) / (total : ℚ)) * 60
      ≤ (((j : ℚ) + 1) / (total : ℚ)) * 60 := by
    rw [div_eq_mul_inv, div_eq_mul_inv]
    have hinv : (0 : ℚ) ≤ ((total : ℚ))⁻¹ := by positivity
    have hij : ((i : ℚ) + 1) ≤ ((j : ℚ) + 1) := by
      have hc : (i : ℚ) ≤ (j : ℚ) := by exact_mod_cast h
      linarith
    exact mul_le_mul_of_nonneg_right
      (mul_le_mul_of_nonneg_right hij hinv) (by norm_num)
  exact add_le_add_left (Int.floor_le_floor harg) 30

theorem videoProgress_ge_30 (total i : ℕ) : 30 ≤ videoProgress total i := by
  unfold videoProgress
  have h0 : (0 : ℤ) ≤ ⌊(((i : ℚ) + 1) / (total : ℚ)) * 60⌋ :=
    Int.floor_nonneg.mpr (by positivity)
  omega

theorem videoProgress_le_100 (total i : ℕ) (h : i < total) :
    videoProgress total i ≤ 100 := by
  unfold videoProgress
  have htot : (0 : ℚ) < (total : ℚ) := by
    exact_mod_cast Nat.lt_of_le_of_lt (Nat.zero_le i) h
  have harg : (((i : ℚ) + 1) / (total : ℚ)) * 60 ≤ 60 := by
    have h1 : ((i : ℚ) + 1) / (total : ℚ) ≤ 1 := by
      rw [div_le_one htot]
      exact_mod_cast Nat.succ_le_of_lt h
    calc (((i : ℚ) + 1) / (total : ℚ)) * 60 ≤ 1 * 60 :=
          mul_le_mul_of_nonneg_right h1 (by norm_num)
      _ = 60 := by norm_num
  have hfl : ⌊(((i : ℚ) + 1) / (total : ℚ)) * 60⌋ ≤ 60 := by
    calc ⌊(((i : ℚ) + 1) / (total : ℚ)) * 60⌋ ≤ ⌊(60 : ℚ)⌋ :=
          Int.floor_le_floor harg
      _ = 60 := by norm_num
  omega

theorem videoSegLoop_progress_sub (env : VideoEnv) (vp od base : String)
    (total : ℕ) :
    ∀ (xs : List (ℚ × ℚ)) (i : ℕ),
      ∃ S : List ℕ,
        (videoSegLoop env vp od base total (enumFrom i xs)).1.progress
          = S.map (videoProgress total) ∧
        List.Chain' (· < ·) S ∧
        ∀ j ∈ S, i ≤ j ∧ j < i + xs.length
  | [], i => ⟨[], by simp [enumFrom, videoSegLoop, Trace.nil], by simp, by simp⟩
  | (s, e) :: xs, i => by
      simp only [enumFrom, videoSegLoop]
      by_cases hse : e ≤ s
      · rw [if_pos hse]
        obtain ⟨S, h1, h2, h3⟩ :=
          videoSegLoop_progress_sub env vp od base total xs (i + 1)
        refine ⟨S, h1, h2, fun j hj => ?_⟩
        have := h3 j hj
        simp only [List.length_cons]
        omega
      · rw [if_neg hse]
        cases hi : env.runOk i
        · rw [if_neg Bool.false_ne_true]
          exact ⟨[], by simp, by simp, by simp⟩
        · rw [if_pos rfl]
          obtain ⟨S, h1, h2, h3⟩ :=
            videoSegLoop_progress_sub env vp od base total xs (i + 1)
          rcases hl : videoSegLoop env vp od base total (enumFrom (i + 1) xs)
            with ⟨tr, res⟩
          rw [hl] at h1
          refine ⟨i :: S, by simpa using h1, ?_, ?_⟩
          · rw [List.chain'_cons']
            refine ⟨fun y hy => ?_, h2⟩
            have := h3 y (List.mem_of_mem_head? hy)
            omega
          · intro j hj
            simp only [List.length_cons]
            rcases List.mem_cons.1 hj with rfl | hj2
            · omega
            · have := h3 j hj2
              omega

theorem split_video_progress_chain (env : VideoEnv)
    (pf : String → Option ℚ) (vp base od : String) (tps : List String) :
    List.Chain' (· ≤ ·) (split_video env pf vp base tps od).1.progress := by
  unfold split_video
  cases hcf : env.configOk
  · simp [Trace.nil]
  · cases hpD : env.probeDuration with
    | none => simp
    | some D =>
        obtain ⟨S, h1, h2, h3⟩ := videoSegLoop_progress_sub env vp od base
          (intervalsOf (splitPointsOf (videoTimeSeconds pf D tps) D)).length
          (intervalsOf (splitPointsOf (videoTimeSeconds pf D tps) D)) 0
        rcases hl : videoSegLoop env vp od base
            (intervalsOf (splitPointsOf (videoTimeSeconds pf D tps) D)).length
            (enumFrom 0 (intervalsOf
              (splitPointsOf (videoTimeSeconds pf D tps) D)))
          with ⟨trL, res⟩
        rw [hl] at h1
        have hchain : List.Chain' (· ≤ ·) trL.progress := by
          rw [h1, List.chain'_map]
          exact h2.imp (fun a b hab => videoProgress_mono _ (Nat.le_of_lt hab))
        have h30 : ∀ x ∈ trL.progress, 30 ≤ x := by
          rw [h1]
          intro x hx
          obtain ⟨j, -, rfl⟩ := List.mem_map.1 hx
          exact videoProgress_ge_30 _ _
        have h100 : ∀ x ∈ trL.progress, x ≤ 100 := by
          rw [h1]
          intro x hx
          obtain ⟨j, hj, rfl⟩ := List.mem_map.1 hx
          have := h3 j hj
          exact videoProgress_le_100 _ _ (by omega)
        have hblock := chain'_progress_block trL.progress hchain h30 h100
        cases res with
        | ok files => simpa [hl] using hblock.1
        | error r => simpa [hl, Trace.app] using hblock.2

/-- C7 (counterexample): with all tools available, a 60 s file and an empty
split-point list, the fast path reports progress 10 and 20, then raises
("no valid split points"); the fallback restarts its reporting at 10.  The
values passed to the progress callback over the whole `split_audio` run are
`[10, 20, 10, 20]` — not monotonically non-decreasing, refuting the claim
for runs that switch from the fast path to the fallback partway through. -/
theorem C7_counterexample :
    (split_audio audioEnvOk pf0 "a.mp3" "a" ".mp3" [] "out").1.progress
      = [10, 20, 10, 20] ∧
    ¬ List.Chain' (· ≤ ·)
        ((split_audio audioEnvOk pf0 "a.mp3" "a" ".mp3" [] "out").1.progress)
    := by
  have hfast : splitAudioWithFfmpeg audioEnvOk pf0 "a.mp3" "a" ".mp3" [] "out"
      = (⟨[10, 20], []⟩, .error (.exc "没有有效的拆分点。")) := by
    unfold splitAudioWithFfmpeg
    simp [audioEnvOk, audioTimeSeconds_nil]
  have hpy : splitAudioWithPydub audioEnvOk pf0 "a.mp3" "a" ".mp3" [] "out"
      = (⟨[10, 20], []⟩, .ok (.err "音频拆分失败: 没有有效的拆分点。")) := by
    unfold splitAudioWithPydub
    simp [audioEnvOk, audioTimeMs_nil]
  have htr : (split_audio audioEnvOk pf0 "a.mp3" "a" ".mp3" [] "out").1.progress
      = [10, 20, 10, 20] := by
    unfold split_audio
    rw [hfast, hpy]
    rfl
  refine ⟨htr, ?_⟩
  rw [htr]
  intro hc
  have h2 := (List.chain'_cons.1 (List.chain'_cons.1 hc).2).1
  norm_num at h2

/-- C7 (amended): within one path execution the progress values are
monotonically non-decreasing — this holds for `split_video` runs, for the
audio fast path on its own and for the pydub fallback on its own, over
every environment and input.  It does not extend across the fast-path →
fallback switch: the fallback restarts at 10 (see the counterexample). -/
theorem C7_progress_monotone (envA : AudioEnv) (envV : VideoEnv)
    (pf : String → Option ℚ) (ap base ext vp baseV od : String)
    (tps : List String) :
    List.Chain' (· ≤ ·)
      (splitAudioWithFfmpeg envA pf ap base ext tps od).1.progress ∧
    List.Chain' (· ≤ ·)
      (splitAudioWithPydub envA pf ap base ext tps od).1.progress ∧
    List.Chain' (· ≤ ·) (split_video envV pf vp baseV tps od).1.progress :=
  ⟨splitAudioWithFfmpeg_progress_chain envA pf ap base ext od tps,
   splitAudioWithPydub_progress_chain envA pf ap base ext od tps,
   split_video_progress_chain envV pf vp baseV od tps⟩

end VideoAudioTool
